import Mathlib

/-!
Verification of the GuildStats statistics store (`src/bot.py`).

A shallow embedding of the persistent statistics store and the stat-record
commands of the GuildStats chat bot.  Strings are modelled as `List Char`
(`Str`), the on-disk file system as an association list from paths to file
contents, and JSON values as an inductive AST (the `json` library's
`dump`/`load` pair is modelled as storing/reading that AST; a file whose
bytes do not parse as JSON is `FileData.bad`).

All definitions are translated from `src/bot.py`; line references appear in
the doc comments.
-/

/-- Strings, modelled as lists of characters (Python `str`). -/
abbrev Str := List Char

/-- Python `str.lower()` (ASCII case folding suffices for all data here). -/
def lowerStr (s : Str) : Str := s.map Char.toLower

/-- Python's notion of whitespace for `str.strip()`. -/
def isSpaceA (c : Char) : Bool :=
  c == ' ' || c == '\t' || c == '\n' || c == '\r' || c == '\x0b' || c == '\x0c'

/-- Python `str.strip()`: remove leading and trailing whitespace. -/
def stripStr (s : Str) : Str :=
  ((s.dropWhile isSpaceA).reverse.dropWhile isSpaceA).reverse

/-- Python `s.replace(c, "")` for a single character `c`: drop every occurrence. -/
def dropChar (c : Char) (s : Str) : Str := s.filter (fun x => !(x == c))

/-- Python `s.replace(" ", "-")`: substitute each space by a hyphen. -/
def spaceToDash (s : Str) : Str := s.map (fun x => if x == ' ' then '-' else x)

/-- Python `needle in hay` on strings: substring containment. -/
def containsSub (needle hay : Str) : Bool := decide (needle <:+: hay)

/-- The constant `AVAILABLE_CLASSES` (bot.py lines 53-57): the ten canonical class names. -/
def AVAILABLE_CLASSES : List Str :=
  ["Vanguard", "Berserker", "Destroyer", "Night Ranger",
   "Elementalist", "Divine Caster", "Assassin", "Deathbringer",
   "Gunslinger", "Warlord"].map String.data

/-- The dict `CLASS_MAPPING` (bot.py lines 59-64): for each class, its lowercase form,
its lowercase form with spaces removed, and its lowercase form with spaces
replaced by hyphens, all mapping to the canonical display form.  Python uses a
dict built in this insertion order; duplicate keys (single-word classes) carry
identical values, so an association list looked up with `List.lookup` has the
same lookup behaviour. -/
def CLASS_MAPPING : List (Str × Str) :=
  AVAILABLE_CLASSES.foldl
    (fun m cls =>
      let cl := lowerStr cls
      m ++ [(cl, cls), (dropChar ' ' cl, cls), (spaceToDash cl, cls)])
    []

/-- The function `normalize_class_name` (bot.py lines 177-195): empty input is rejected;
otherwise the lowercased, stripped input is looked up in `CLASS_MAPPING`, then
its space- and hyphen-free form is looked up, then the two multi-word classes
are recognised whenever both constituent words occur as substrings. -/
def normalize_class_name (input_class : Str) : Option Str :=
  if input_class = [] then none
  else
    let input_lower := stripStr (lowerStr input_class)
    match List.lookup input_lower CLASS_MAPPING with
    | some v => some v
    | none =>
      let simple_input := dropChar '-' (dropChar ' ' input_lower)
      match List.lookup simple_input CLASS_MAPPING with
      | some v => some v
      | none =>
        if containsSub "night".data input_lower && containsSub "ranger".data input_lower then
          some "Night Ranger".data
        else if containsSub "divine".data input_lower && containsSub "caster".data input_lower then
          some "Divine Caster".data
        else none

/-- One user's stat record, with the exact fields written by `set_stats`
(bot.py lines 238-247).  Numeric command arguments are Python `int`s (arbitrary
precision, possibly negative), hence `Int`. -/
structure Record where
  attack : Int
  defense : Int
  accuracy : Int
  character_class : Option Str
  legendary_skin : Bool
  legendary_familiar : Bool
  total_score : Int
  updated_at : Str
deriving DecidableEq

/-- The in-memory statistics database: a Python dict from user id to record,
modelled as an association list in insertion order with unique keys. -/
abbrev Db := List (Str × Record)

/-- Python dict assignment `stats[user_id] = v`: overwrite in place if the key
exists (keeping its position), else append at the end. -/
def dbSet : Db → Str → Record → Db
  | [], k, v => [(k, v)]
  | (k', v') :: t, k, v =>
    if k' = k then (k, v) :: t else (k', v') :: dbSet t k v

/-- Python in-place field mutation `stats[user_id]['field'] = x`: apply `f` to
the record stored under `k` (identity when `k` is absent). -/
def dbModify (f : Record → Record) : Db → Str → Db
  | [], _ => []
  | (k', v') :: t, k =>
    if k' = k then (k, f v') :: t else (k', v') :: dbModify f t k

/-- The function `calculate_total` (bot.py lines 110-111): `attack + defense + accuracy`
(the Python `.get(_, 0)` defaults never fire on a fully-populated record). -/
def calculate_total (r : Record) : Int := r.attack + r.defense + r.accuracy

/-- JSON values, the image of Python's `json` module on the data this program
stores (all numbers in the database are integers). -/
inductive Json where
  | null : Json
  | bool (b : Bool) : Json
  | num (n : Int) : Json
  | str (s : Str) : Json
  | arr (elems : List Json) : Json
  | obj (fields : List (Str × Json)) : Json

/-- The bytes of one on-disk file: either well-formed JSON text (represented by
its parse) or bytes that fail to parse (truncated / corrupt / unreadable). -/
inductive FileData where
  | good (j : Json) : FileData
  | bad : FileData

/-- The file system: paths mapped to file contents. -/
abbrev FS := List (Str × FileData)

/-- Overwrite (or create) the file at path `p`. -/
def fsSet (fs : FS) (p : Str) (d : FileData) : FS :=
  (p, d) :: fs.filter (fun kv => !(kv.1 == p))

/-- Delete the file at path `p`. -/
def fsRemove (fs : FS) (p : Str) : FS := fs.filter (fun kv => !(kv.1 == p))

/-- Python `os.path.exists`. -/
def fsExists (fs : FS) (p : Str) : Bool := (List.lookup p fs).isSome

/-- Python `json.dump` of one record: the dict literal of bot.py lines 238-247, in its
key insertion order; an absent class is JSON `null`. -/
def encodeRecord (r : Record) : Json :=
  Json.obj
    [("attack".data, Json.num r.attack),
     ("defense".data, Json.num r.defense),
     ("accuracy".data, Json.num r.accuracy),
     ("character_class".data,
       match r.character_class with
       | none => Json.null
       | some c => Json.str c),
     ("legendary_skin".data, Json.bool r.legendary_skin),
     ("legendary_familiar".data, Json.bool r.legendary_familiar),
     ("total_score".data, Json.num r.total_score),
     ("updated_at".data, Json.str r.updated_at)]

/-- Python `json.dump` of the whole database (a dict of record dicts). -/
def encodeDb (db : Db) : Json :=
  Json.obj (db.map (fun kv => (kv.1, encodeRecord kv.2)))

/-- Read one record back out of its JSON object (field access as performed
throughout bot.py); `none` when a field is missing or has the wrong shape. -/
def decodeRecord (j : Json) : Option Record :=
  match j with
  | Json.obj fields =>
    match List.lookup "attack".data fields, List.lookup "defense".data fields,
          List.lookup "accuracy".data fields, List.lookup "character_class".data fields,
          List.lookup "legendary_skin".data fields, List.lookup "legendary_familiar".data fields,
          List.lookup "total_score".data fields, List.lookup "updated_at".data fields with
    | some (Json.num a), some (Json.num d), some (Json.num ac), some cc,
      some (Json.bool sk), some (Json.bool fm), some (Json.num ts), some (Json.str ua) =>
      match cc with
      | Json.null => some ⟨a, d, ac, none, sk, fm, ts, ua⟩
      | Json.str c => some ⟨a, d, ac, some c, sk, fm, ts, ua⟩
      | _ => none
    | _, _, _, _, _, _, _, _ => none
  | _ => none

/-- Decode a list of JSON object fields as a database, failing if any record
fails to decode. -/
def decodeFields : List (Str × Json) → Option Db
  | [] => some []
  | (k, j) :: t =>
    match decodeRecord j, decodeFields t with
    | some r, some db => some ((k, r) :: db)
    | _, _ => none

/-- Read a JSON value back as a database (`none` when it is not an object of
well-formed records). -/
def decodeDb (j : Json) : Option Db :=
  match j with
  | Json.obj fields => decodeFields fields
  | _ => none

/-- The empty dict `{}`. -/
def emptyJson : Json := Json.obj []

/-- The function `load_stats` (bot.py lines 76-86), with `p` the primary path `STATS_FILE`:
if the primary file exists and parses, return its contents (whatever JSON they
are); on a missing file, or on any exception while opening/reading/parsing,
return `{}`.  No other path is ever consulted and nothing is written. -/
def load_stats (p : Str) (fs : FS) : Json :=
  match List.lookup p fs with
  | some (FileData.good j) => j
  | some FileData.bad => emptyJson
  | none => emptyJson

/-- The `.backup` sibling of the primary path (bot.py line 96). -/
def backupPath (p : Str) : Str := p ++ ".backup".data

/-- The `.tmp` sibling of the primary path (bot.py line 99). -/
def tmpPath (p : Str) : Str := p ++ ".tmp".data

/-- Fault injection for `save_stats`: the first I/O operation that raises an
exception during this call (`noFail` when the whole call succeeds).  A step
that is skipped (backing up a non-existent primary) cannot raise. -/
inductive FailAt where
  | noFail | atMakedirs | atBackup | atWrite | atReplace
deriving DecidableEq

/-- The write phase of `save_stats` (bot.py lines 98-105): serialize the full
database to the `.tmp` sibling, then `os.replace` it atomically onto the
primary.  A failing serialization leaves partial bytes in the `.tmp` file; a
failing replace leaves the fully-written `.tmp` file; both return `false`
through the enclosing `except`. -/
def saveWrite (p : Str) (fs : FS) (db : Db) (fp : FailAt) : Bool × FS :=
  if fp = FailAt.atWrite then (false, fsSet fs (tmpPath p) FileData.bad)
  else
    let fs2 := fsSet fs (tmpPath p) (FileData.good (encodeDb db))
    if fp = FailAt.atReplace then (false, fs2)
    else (true, fsRemove (fsSet fs2 p (FileData.good (encodeDb db))) (tmpPath p))

/-- The function `save_stats` (bot.py lines 88-108), with `p` the primary path: ensure the
directory exists, copy the existing primary (if any) to its `.backup` sibling,
then run the write phase.  Every exception is caught by the enclosing
`try`/`except`, which returns `false`; the function is total and never raises.
A failing backup copy may leave partial bytes in the `.backup` file. -/
def save_stats (p : Str) (fs : FS) (db : Db) (fp : FailAt) : Bool × FS :=
  if fp = FailAt.atMakedirs then (false, fs)
  else
    match List.lookup p fs with
    | some d =>
      if fp = FailAt.atBackup then (false, fsSet fs (backupPath p) FileData.bad)
      else saveWrite p (fsSet fs (backupPath p) d) db fp
    | none => saveWrite p fs db fp

/-- Outcome of the `!setstats` handler. -/
inductive SetStatsOut where
  | invalidClass : SetStatsOut
  | saveDb (db : Db) : SetStatsOut
deriving DecidableEq

/-- The handler `set_stats` for `!setstats` (bot.py lines 228-266): normalize the
optional class argument; if a (non-empty) class was given but fails to
normalize, report "Invalid class" and mutate nothing; otherwise store a fresh
record for the author with the given numbers, `total_score` their sum, a fresh
timestamp `now`, and both legendary flags cleared, then call
`save_stats`.  `saveDb db'` means the handler called `save_stats` on `db'`. -/
def set_stats_cmd (db : Db) (uid : Str) (attack defense accuracy : Int)
    (character_class : Option Str) (now : Str) : SetStatsOut :=
  let normalized_class := normalize_class_name (character_class.getD [])
  if character_class.getD [] ≠ [] ∧ normalized_class = none then
    SetStatsOut.invalidClass
  else
    SetStatsOut.saveDb
      (dbSet db uid
        { attack := attack, defense := defense, accuracy := accuracy,
          character_class := normalized_class,
          legendary_skin := false, legendary_familiar := false,
          total_score := attack + defense + accuracy, updated_at := now })

/-- Outcome of the `!update` handler. -/
inductive UpdateOut where
  | noStats : UpdateOut
  | noChanges : UpdateOut
  | saveDb (db : Db) : UpdateOut
deriving DecidableEq

/-- The record transformation performed by the `!update` handler (bot.py lines
385-400): overwrite exactly the fields whose arguments were supplied, then
recompute `total_score` via `calculate_total` and stamp `updated_at`. -/
def applyUpdate (attack defense accuracy : Option Int) (now : Str) (r : Record) : Record :=
  let r1 := match attack with | some a => { r with attack := a } | none => r
  let r2 := match defense with | some d => { r1 with defense := d } | none => r1
  let r3 := match accuracy with | some a => { r2 with accuracy := a } | none => r2
  { r3 with total_score := calculate_total r3, updated_at := now }

/-- The handler `update_stats` for `!update` (bot.py lines 375-415): error when
the author has no record; error when no argument was supplied; otherwise apply
`applyUpdate` to the author's record and call `save_stats`. -/
def update_stats_cmd (db : Db) (uid : Str)
    (attack defense accuracy : Option Int) (now : Str) : UpdateOut :=
  match List.lookup uid db with
  | none => UpdateOut.noStats
  | some _ =>
    if attack.isNone ∧ defense.isNone ∧ accuracy.isNone then UpdateOut.noChanges
    else UpdateOut.saveDb (dbModify (applyUpdate attack defense accuracy now) db uid)

/-- Outcome of the `!setskin` / `!setfamiliar` handlers. -/
inductive FlagOut where
  | usage : FlagOut
  | invalidValue : FlagOut
  | noStats : FlagOut
  | saveDb (db : Db) : FlagOut
deriving DecidableEq

/-- The four accepted flag tokens (bot.py lines 303 and 330). -/
def yesNoTokens : List Str := ["yes", "no", "tak", "nie"].map String.data

/-- The tokens meaning "yes" (bot.py lines 307 and 334). -/
def yesTokens : List Str := ["yes", "tak"].map String.data

/-- The handler `set_skin` for `!setskin` (bot.py lines 296-321): usage error on a
missing argument; lowercase the argument and reject it unless it is one of
`yes`/`no`/`tak`/`nie`; error when the author has no record; otherwise set
`legendary_skin` to whether the token is `yes`/`tak` and call `save_stats`. -/
def set_skin_cmd (db : Db) (uid : Str) (has_skin : Option Str) : FlagOut :=
  match has_skin with
  | none => FlagOut.usage
  | some s =>
    let sl := lowerStr s
    if ¬ (yesNoTokens.contains sl) then FlagOut.invalidValue
    else
      let skin_bool := yesTokens.contains sl
      match List.lookup uid db with
      | none => FlagOut.noStats
      | some _ =>
        FlagOut.saveDb (dbModify (fun r => { r with legendary_skin := skin_bool }) db uid)

/-- The handler `set_familiar` for `!setfamiliar` (bot.py lines 323-348): same
shape as `set_skin`, targeting `legendary_familiar`. -/
def set_familiar_cmd (db : Db) (uid : Str) (has_familiar : Option Str) : FlagOut :=
  match has_familiar with
  | none => FlagOut.usage
  | some s =>
    let sl := lowerStr s
    if ¬ (yesNoTokens.contains sl) then FlagOut.invalidValue
    else
      let familiar_bool := yesTokens.contains sl
      match List.lookup uid db with
      | none => FlagOut.noStats
      | some _ =>
        FlagOut.saveDb (dbModify (fun r => { r with legendary_familiar := familiar_bool }) db uid)

/-- Outcome of the `!setclass` handler. -/
inductive ClassOut where
  | usage : ClassOut
  | invalidClass : ClassOut
  | noStats : ClassOut
  | saveDb (db : Db) : ClassOut
deriving DecidableEq

/-- The handler `set_class` for `!setclass` (bot.py lines 350-373): usage error on
a missing/empty argument; "Invalid class" when normalization fails; error when
the author has no record; otherwise overwrite `character_class` with the
canonical form and call `save_stats`. -/
def set_class_cmd (db : Db) (uid : Str) (character_class : Option Str) : ClassOut :=
  match character_class with
  | none => ClassOut.usage
  | some c =>
    if c = [] then ClassOut.usage
    else
      match normalize_class_name c with
      | none => ClassOut.invalidClass
      | some nc =>
        match List.lookup uid db with
        | none => ClassOut.noStats
        | some _ =>
          ClassOut.saveDb (dbModify (fun r => { r with character_class := some nc }) db uid)

/-- Number of entries Python's `len` reports for a loaded JSON value (the
loaded value is a dict in every reachable state; sized values are measured,
unsized ones idealised to 0). -/
def jsonLen (j : Json) : Nat :=
  match j with
  | Json.obj fields => fields.length
  | Json.arr elems => elems.length
  | Json.str s => s.length
  | _ => 0

/-- The timestamped file name `backup_<timestamp>.json` (bot.py line 601). -/
def manualBackupName (timestamp : Str) : Str :=
  "backup_".data ++ timestamp ++ ".json".data

/-- The JSON object written by `!backup` (bot.py lines 603-608). -/
def manualBackupJson (nowIso : Str) (stats : Json) : Json :=
  Json.obj
    [("backup_date".data, Json.str nowIso),
     ("player_count".data, Json.num (jsonLen stats)),
     ("data".data, stats)]

/-- The handler `backup_command` for `!backup` (bot.py lines 597-610): load the
database and write it, with a date stamp and player count, to the single
relative path `backup_<timestamp>.json`.  There is no `try`/`except` around the
write: when the write raises (`writeFails`), the exception propagates out of
the handler (`Except.error`). -/
def backup_command (p : Str) (fs : FS) (timestamp nowIso : Str)
    (writeFails : Bool) : Except Unit FS :=
  let stats := load_stats p fs
  let backup_file := manualBackupName timestamp
  if writeFails then Except.error ()
  else Except.ok (fsSet fs backup_file (FileData.good (manualBackupJson nowIso stats)))

/-! ## Association-list and file-system lemmas -/

theorem lookup_cons_ite {β : Type} (kv : Str × β) (l : List (Str × β)) (q : Str) :
    List.lookup q (kv :: l) = if q = kv.1 then some kv.2 else List.lookup q l := by
  obtain ⟨k, v⟩ := kv
  rw [List.lookup_cons]
  by_cases h : q = k
  · simp [h]
  · simp [beq_false_of_ne h, h]

theorem lookup_mem {α β : Type} [BEq α] [LawfulBEq α] {l : List (α × β)} {k : α} {b : β}
    (h : List.lookup k l = some b) : (k, b) ∈ l := by
  obtain ⟨l₁, l₂, rfl, -⟩ := List.lookup_eq_some_iff.mp h
  simp

theorem lookup_filter_key_ne {β : Type} {l : List (Str × β)} {q p : Str} (h : q ≠ p) :
    List.lookup q (l.filter (fun kv => !(kv.1 == p))) = List.lookup q l := by
  induction l with
  | nil => rfl
  | cons kv t ih =>
    by_cases hk : kv.1 = p
    · rw [List.filter_cons_of_neg (by simp [hk]), ih, lookup_cons_ite,
        if_neg (by rw [hk]; exact h)]
    · rw [List.filter_cons_of_pos (by simp [hk]), lookup_cons_ite, lookup_cons_ite, ih]

theorem lookup_filter_key_self {β : Type} {l : List (Str × β)} {p : Str} :
    List.lookup p (l.filter (fun kv => !(kv.1 == p))) = none := by
  induction l with
  | nil => rfl
  | cons kv t ih =>
    by_cases hk : kv.1 = p
    · rw [List.filter_cons_of_neg (by simp [hk]), ih]
    · rw [List.filter_cons_of_pos (by simp [hk]), lookup_cons_ite,
        if_neg (fun hp => hk hp.symm), ih]

theorem lookup_fsSet_self {fs : FS} {p : Str} {d : FileData} :
    List.lookup p (fsSet fs p d) = some d := by
  rw [fsSet, lookup_cons_ite, if_pos rfl]

theorem lookup_fsSet_ne {fs : FS} {q p : Str} {d : FileData} (h : q ≠ p) :
    List.lookup q (fsSet fs p d) = List.lookup q fs := by
  rw [fsSet, lookup_cons_ite, if_neg h]
  exact lookup_filter_key_ne h

theorem lookup_fsRemove_self {fs : FS} {p : Str} :
    List.lookup p (fsRemove fs p) = none := lookup_filter_key_self

theorem lookup_fsRemove_ne {fs : FS} {q p : Str} (h : q ≠ p) :
    List.lookup q (fsRemove fs p) = List.lookup q fs := lookup_filter_key_ne h

theorem ne_append_of_ne_nil {p s : Str} (h : s ≠ []) : p ≠ p ++ s := by
  intro he
  have hl := congrArg List.length he
  simp only [List.length_append] at hl
  have : s.length = 0 := by omega
  exact h (List.length_eq_zero.mp this)

theorem p_ne_tmpPath (p : Str) : p ≠ tmpPath p := ne_append_of_ne_nil (by decide)

theorem p_ne_backupPath (p : Str) : p ≠ backupPath p := ne_append_of_ne_nil (by decide)

theorem backupPath_ne_tmpPath (p : Str) : backupPath p ≠ tmpPath p := fun h =>
  absurd (List.append_cancel_left h) (by decide)

theorem lookup_dbSet_self {db : Db} {k : Str} {v : Record} :
    List.lookup k (dbSet db k v) = some v := by
  induction db with
  | nil => rw [dbSet, lookup_cons_ite, if_pos rfl]
  | cons kv t ih =>
    obtain ⟨k', v'⟩ := kv
    by_cases hk : k' = k
    · rw [dbSet, if_pos hk, lookup_cons_ite, if_pos rfl]
    · rw [dbSet, if_neg hk, lookup_cons_ite, if_neg (fun hp => hk hp.symm), ih]

theorem lookup_dbSet_ne {db : Db} {q k : Str} {v : Record} (h : q ≠ k) :
    List.lookup q (dbSet db k v) = List.lookup q db := by
  induction db with
  | nil => rw [dbSet, lookup_cons_ite, if_neg h, List.lookup_nil]
  | cons kv t ih =>
    obtain ⟨k', v'⟩ := kv
    by_cases hk : k' = k
    · rw [dbSet, if_pos hk, lookup_cons_ite, if_neg h, lookup_cons_ite, if_neg (hk ▸ h)]
    · rw [dbSet, if_neg hk, lookup_cons_ite, lookup_cons_ite, ih]

theorem lookup_dbModify_self {f : Record → Record} {db : Db} {k : Str} :
    List.lookup k (dbModify f db k) = (List.lookup k db).map f := by
  induction db with
  | nil => rfl
  | cons kv t ih =>
    obtain ⟨k', v'⟩ := kv
    by_cases hk : k' = k
    · rw [dbModify, if_pos hk, lookup_cons_ite, if_pos rfl, lookup_cons_ite,
        if_pos hk.symm, Option.map_some']
    · rw [dbModify, if_neg hk, lookup_cons_ite, if_neg (fun hp => hk hp.symm), ih,
        lookup_cons_ite, if_neg (fun hp => hk hp.symm)]

theorem lookup_dbModify_ne {f : Record → Record} {db : Db} {q k : Str} (h : q ≠ k) :
    List.lookup q (dbModify f db k) = List.lookup q db := by
  induction db with
  | nil => rfl
  | cons kv t ih =>
    obtain ⟨k', v'⟩ := kv
    by_cases hk : k' = k
    · rw [dbModify, if_pos hk, lookup_cons_ite, if_neg h, lookup_cons_ite, if_neg (hk ▸ h)]
    · rw [dbModify, if_neg hk, lookup_cons_ite, lookup_cons_ite, ih]

theorem mem_dbSet {db : Db} {k : Str} {v : Record} {kv : Str × Record}
    (hm : kv ∈ dbSet db k v) : kv = (k, v) ∨ kv ∈ db := by
  induction db with
  | nil =>
    rw [dbSet] at hm
    rcases List.mem_singleton.mp hm with h
    exact Or.inl h
  | cons kv' t ih =>
    obtain ⟨k', v'⟩ := kv'
    by_cases hk : k' = k
    · rw [dbSet, if_pos hk] at hm
      rcases List.mem_cons.mp hm with h | h
      · exact Or.inl h
      · exact Or.inr (List.mem_cons_of_mem _ h)
    · rw [dbSet, if_neg hk] at hm
      rcases List.mem_cons.mp hm with h | h
      · exact Or.inr (h ▸ List.mem_cons_self _ _)
      · rcases ih h with h' | h'
        · exact Or.inl h'
        · exact Or.inr (List.mem_cons_of_mem _ h')

theorem mem_dbModify {f : Record → Record} {db : Db} {k : Str} {kv : Str × Record}
    (hm : kv ∈ dbModify f db k) : kv ∈ db ∨ ∃ r, (k, r) ∈ db ∧ kv = (k, f r) := by
  induction db with
  | nil =>
    rw [dbModify] at hm
    exact absurd hm (List.not_mem_nil _)
  | cons kv' t ih =>
    obtain ⟨k', v'⟩ := kv'
    by_cases hk : k' = k
    · rw [dbModify, if_pos hk] at hm
      rcases List.mem_cons.mp hm with h | h
      · exact Or.inr ⟨v', by rw [← hk]; exact List.mem_cons_self _ _, h⟩
      · exact Or.inl (List.mem_cons_of_mem _ h)
    · rw [dbModify, if_neg hk] at hm
      rcases List.mem_cons.mp hm with h | h
      · exact Or.inl (h ▸ List.mem_cons_self _ _)
      · rcases ih h with h' | ⟨r, hr, hkv⟩
        · exact Or.inl (List.mem_cons_of_mem _ h')
        · exact Or.inr ⟨r, List.mem_cons_of_mem _ hr, hkv⟩

/-! ## Substring lemmas -/

theorem containsSub_iff {n h : Str} : containsSub n h = true ↔ n <:+: h := by
  simp [containsSub]

theorem infix_dropWhile {p : Char → Bool} {pat l : Str} (hne : pat ≠ [])
    (hpat : ∀ c ∈ pat, p c = false) (h : pat <:+: l) : pat <:+: l.dropWhile p := by
  induction l with
  | nil => simpa using h
  | cons a t ih =>
    by_cases ha : p a
    · rw [List.dropWhile_cons_of_pos ha]
      rcases List.infix_cons_iff.mp h with h' | h'
      · cases pat with
        | nil => exact absurd rfl hne
        | cons c cs =>
          have hc : c = a := (List.cons_prefix_cons.mp h').1
          have hf := hpat c (List.mem_cons_self _ _)
          rw [hc, ha] at hf
          exact absurd hf (by simp)
      · exact ih h'
    · rwa [List.dropWhile_cons_of_neg ha]

theorem rev_pre_iff {l1 l2 : Str} : l1.reverse <+: l2.reverse ↔ l1 <:+ l2 :=
  List.reverse_prefix

theorem rev_sub_iff {l1 l2 : Str} : l1.reverse <:+: l2.reverse ↔ l1 <:+: l2 :=
  List.reverse_infix

theorem stripStr_sub (l : Str) : stripStr l <:+: l := by
  have h1 : l.dropWhile isSpaceA <:+ l := List.dropWhile_suffix isSpaceA
  have h3 : ((l.dropWhile isSpaceA).reverse.dropWhile isSpaceA).reverse <+:
      ((l.dropWhile isSpaceA).reverse).reverse := rev_pre_iff.mpr (List.dropWhile_suffix isSpaceA)
  rw [List.reverse_reverse] at h3
  exact h3.isInfix.trans h1.isInfix

theorem infix_stripStr {pat l : Str} (hne : pat ≠ [])
    (hpat : ∀ c ∈ pat, isSpaceA c = false) (h : pat <:+: l) : pat <:+: stripStr l := by
  have h1 : pat <:+: l.dropWhile isSpaceA := infix_dropWhile hne hpat h
  have h2 : pat.reverse <:+: (l.dropWhile isSpaceA).reverse := rev_sub_iff.mpr h1
  have h3 : pat.reverse <:+: (l.dropWhile isSpaceA).reverse.dropWhile isSpaceA :=
    infix_dropWhile (by simpa using hne) (fun c hc => hpat c (List.mem_reverse.mp hc)) h2
  have h4 : pat.reverse <:+: (stripStr l).reverse := by
    rw [stripStr, List.reverse_reverse]
    exact h3
  exact rev_sub_iff.mp h4

theorem infix_filter {q : Char → Bool} {pat l : Str} (hpat : pat.filter q = pat)
    (h : pat <:+: l) : pat <:+: l.filter q := by
  obtain ⟨s, t, rfl⟩ := h
  refine ⟨s.filter q, t.filter q, ?_⟩
  simp [List.filter_append, hpat]

/-! ## `CLASS_MAPPING` facts -/

theorem mapping_night : ∀ kv ∈ CLASS_MAPPING,
    containsSub "night".data kv.1 = true → kv.2 = "Night Ranger".data := by decide

theorem mapping_divine : ∀ kv ∈ CLASS_MAPPING,
    containsSub "divine".data kv.1 = true → kv.2 = "Divine Caster".data := by decide

theorem mapping_values : ∀ kv ∈ CLASS_MAPPING, kv.2 ∈ AVAILABLE_CLASSES := by decide

theorem normalize_night_rule {s : Str}
    (hn : "night".data <:+: lowerStr s) (hr : "ranger".data <:+: lowerStr s) :
    normalize_class_name s = some "Night Ranger".data := by
  have hsne : s ≠ [] := by
    intro hs
    subst hs
    exact absurd (List.infix_nil.mp hn) (by decide)
  have hnA : "night".data <:+: stripStr (lowerStr s) :=
    infix_stripStr (by decide) (by decide) hn
  have hrA : "ranger".data <:+: stripStr (lowerStr s) :=
    infix_stripStr (by decide) (by decide) hr
  simp only [normalize_class_name, if_neg hsne]
  cases hlk : List.lookup (stripStr (lowerStr s)) CLASS_MAPPING with
  | some v =>
    have hv := mapping_night _ (lookup_mem hlk) (containsSub_iff.mpr hnA)
    exact congrArg some hv
  | none =>
    have hnS : "night".data <:+: dropChar '-' (dropChar ' ' (stripStr (lowerStr s))) :=
      infix_filter (by decide) (infix_filter (by decide) hnA)
    cases hlk2 : List.lookup (dropChar '-' (dropChar ' ' (stripStr (lowerStr s)))) CLASS_MAPPING with
    | some v =>
      have hv := mapping_night _ (lookup_mem hlk2) (containsSub_iff.mpr hnS)
      exact congrArg some hv
    | none =>
      simp [containsSub_iff.mpr hnA, containsSub_iff.mpr hrA]

theorem normalize_divine_rule {s : Str}
    (hd : "divine".data <:+: lowerStr s) (hc : "caster".data <:+: lowerStr s)
    (hnr : ¬ ("night".data <:+: lowerStr s ∧ "ranger".data <:+: lowerStr s)) :
    normalize_class_name s = some "Divine Caster".data := by
  have hsne : s ≠ [] := by
    intro hs
    subst hs
    exact absurd (List.infix_nil.mp hd) (by decide)
  have hdA : "divine".data <:+: stripStr (lowerStr s) :=
    infix_stripStr (by decide) (by decide) hd
  have hcA : "caster".data <:+: stripStr (lowerStr s) :=
    infix_stripStr (by decide) (by decide) hc
  have hnrA : ¬ ("night".data <:+: stripStr (lowerStr s) ∧
      "ranger".data <:+: stripStr (lowerStr s)) := by
    rintro ⟨h1, h2⟩
    exact hnr ⟨h1.trans (stripStr_sub _), h2.trans (stripStr_sub _)⟩
  simp only [normalize_class_name, if_neg hsne]
  cases hlk : List.lookup (stripStr (lowerStr s)) CLASS_MAPPING with
  | some v =>
    have hv := mapping_divine _ (lookup_mem hlk) (containsSub_iff.mpr hdA)
    exact congrArg some hv
  | none =>
    have hdS : "divine".data <:+: dropChar '-' (dropChar ' ' (stripStr (lowerStr s))) :=
      infix_filter (by decide) (infix_filter (by decide) hdA)
    cases hlk2 : List.lookup (dropChar '-' (dropChar ' ' (stripStr (lowerStr s)))) CLASS_MAPPING with
    | some v =>
      have hv := mapping_divine _ (lookup_mem hlk2) (containsSub_iff.mpr hdS)
      exact congrArg some hv
    | none =>
      have hfalse : (containsSub "night".data (stripStr (lowerStr s)) &&
          containsSub "ranger".data (stripStr (lowerStr s))) = false := by
        rw [Bool.and_eq_false_iff]
        by_cases h1 : "night".data <:+: stripStr (lowerStr s)
        · have h2 : ¬ "ranger".data <:+: stripStr (lowerStr s) := fun h2 => hnrA ⟨h1, h2⟩
          exact Or.inr (by simp [containsSub, h2])
        · exact Or.inl (by simp [containsSub, h1])
      simp [hfalse, containsSub_iff.mpr hdA, containsSub_iff.mpr hcA]

theorem normalize_mem_classes {s v : Str}
    (hv : normalize_class_name s = some v) : v ∈ AVAILABLE_CLASSES := by
  by_cases hs : s = []
  · subst hs
    simp [normalize_class_name] at hv
  · simp only [normalize_class_name, if_neg hs] at hv
    rcases hlk : List.lookup (stripStr (lowerStr s)) CLASS_MAPPING with - | u
    · rw [hlk] at hv
      rcases hlk2 : List.lookup (dropChar '-' (dropChar ' ' (stripStr (lowerStr s)))) CLASS_MAPPING with - | u
      · rw [hlk2] at hv
        simp only [] at hv
        by_cases h1 : (containsSub "night".data (stripStr (lowerStr s)) &&
            containsSub "ranger".data (stripStr (lowerStr s))) = true
        · rw [if_pos h1] at hv
          cases hv
          decide
        · rw [if_neg h1] at hv
          by_cases h2 : (containsSub "divine".data (stripStr (lowerStr s)) &&
              containsSub "caster".data (stripStr (lowerStr s))) = true
          · rw [if_pos h2] at hv
            cases hv
            decide
          · rw [if_neg h2] at hv
            cases hv
      · rw [hlk2] at hv
        simp only [Option.some.injEq] at hv
        subst hv
        exact mapping_values _ (lookup_mem hlk2)
    · rw [hlk] at hv
      simp only [Option.some.injEq] at hv
      subst hv
      exact mapping_values _ (lookup_mem hlk)

theorem normalize_case_insensitive {s t : Str} (h : lowerStr s = lowerStr t) :
    normalize_class_name s = normalize_class_name t := by
  by_cases hs : s = []
  · have ht : t = [] := by
      have : lowerStr t = [] := by rw [← h, hs]; rfl
      simpa [lowerStr] using this
    rw [hs, ht]
  · have ht : t ≠ [] := by
      intro ht0
      apply hs
      have : lowerStr s = [] := by rw [h, ht0]; rfl
      simpa [lowerStr] using this
    simp only [normalize_class_name, if_neg hs, if_neg ht, h]

theorem normalize_canonical_forms : ∀ c ∈ AVAILABLE_CLASSES,
    normalize_class_name c = some c ∧
    normalize_class_name (lowerStr c) = some c ∧
    normalize_class_name (dropChar ' ' (lowerStr c)) = some c ∧
    normalize_class_name (spaceToDash (lowerStr c)) = some c := by decide

/-! ## `save_stats` computation lemmas -/

theorem save_noFail_eq_some {p : Str} {fs : FS} {db : Db} {d : FileData}
    (hlk : List.lookup p fs = some d) :
    save_stats p fs db FailAt.noFail =
      (true, fsRemove (fsSet (fsSet (fsSet fs (backupPath p) d) (tmpPath p)
        (FileData.good (encodeDb db))) p (FileData.good (encodeDb db))) (tmpPath p)) := by
  simp [save_stats, saveWrite, hlk]

theorem save_noFail_eq_none {p : Str} {fs : FS} {db : Db}
    (hlk : List.lookup p fs = none) :
    save_stats p fs db FailAt.noFail =
      (true, fsRemove (fsSet (fsSet fs (tmpPath p)
        (FileData.good (encodeDb db))) p (FileData.good (encodeDb db))) (tmpPath p)) := by
  simp [save_stats, saveWrite, hlk]

theorem save_noFail_primary {p : Str} {fs : FS} {db : Db} :
    List.lookup p (save_stats p fs db FailAt.noFail).2 =
      some (FileData.good (encodeDb db)) := by
  cases hlk : List.lookup p fs with
  | some d =>
    rw [save_noFail_eq_some hlk]
    rw [lookup_fsRemove_ne (p_ne_tmpPath p), lookup_fsSet_self]
  | none =>
    rw [save_noFail_eq_none hlk]
    rw [lookup_fsRemove_ne (p_ne_tmpPath p), lookup_fsSet_self]

theorem decodeRecord_encodeRecord (r : Record) : decodeRecord (encodeRecord r) = some r := by
  rcases r with ⟨a, d, ac, cc, sk, fm, ts, ua⟩
  cases cc <;> rfl

theorem decodeFields_encode (db : Db) :
    decodeFields (db.map (fun kv => (kv.1, encodeRecord kv.2))) = some db := by
  induction db with
  | nil => rfl
  | cons kv t ih => simp [decodeFields, decodeRecord_encodeRecord, ih]

/-- C1: `save_stats` follows the three-step write protocol.  On a fully
successful save the primary file holds exactly the serialized database, the
temporary file is gone, and the previous primary content (when there was one)
sits at the `.backup` sibling; and for every possible failure point the
primary path holds either its previous (complete) content or the new complete
serialization — never the partial bytes, which can only ever reach the `.tmp`
or `.backup` siblings. -/
theorem save_stats_write_protocol : ∀ (p : Str) (fs : FS) (db : Db),
    ((save_stats p fs db FailAt.noFail).1 = true ∧
     List.lookup p (save_stats p fs db FailAt.noFail).2 =
       some (FileData.good (encodeDb db)) ∧
     List.lookup (tmpPath p) (save_stats p fs db FailAt.noFail).2 = none ∧
     (∀ d, List.lookup p fs = some d →
       List.lookup (backupPath p) (save_stats p fs db FailAt.noFail).2 = some d) ∧
     (List.lookup p fs = none →
       List.lookup (backupPath p) (save_stats p fs db FailAt.noFail).2 =
         List.lookup (backupPath p) fs)) ∧
    (∀ fp, List.lookup p (save_stats p fs db fp).2 = List.lookup p fs ∨
       List.lookup p (save_stats p fs db fp).2 = some (FileData.good (encodeDb db))) := by
  intro p fs db
  constructor
  · refine ⟨?_, save_noFail_primary, ?_, ?_, ?_⟩
    · cases hlk : List.lookup p fs with
      | some d => rw [save_noFail_eq_some hlk]
      | none => rw [save_noFail_eq_none hlk]
    · cases hlk : List.lookup p fs with
      | some d => rw [save_noFail_eq_some hlk, lookup_fsRemove_self]
      | none => rw [save_noFail_eq_none hlk, lookup_fsRemove_self]
    · intro d hlk
      rw [save_noFail_eq_some hlk,
        lookup_fsRemove_ne (backupPath_ne_tmpPath p),
        lookup_fsSet_ne (Ne.symm (p_ne_backupPath p)),
        lookup_fsSet_ne (backupPath_ne_tmpPath p), lookup_fsSet_self]
    · intro hlk
      rw [save_noFail_eq_none hlk,
        lookup_fsRemove_ne (backupPath_ne_tmpPath p),
        lookup_fsSet_ne (Ne.symm (p_ne_backupPath p)),
        lookup_fsSet_ne (backupPath_ne_tmpPath p)]
  · intro fp
    cases hlk : List.lookup p fs with
    | some d =>
      cases fp with
      | noFail => exact Or.inr save_noFail_primary
      | atMakedirs => exact Or.inl hlk
      | atBackup =>
        have e : save_stats p fs db FailAt.atBackup =
            (false, fsSet fs (backupPath p) FileData.bad) := by
          simp [save_stats, hlk]
        rw [e]
        exact Or.inl ((lookup_fsSet_ne (p_ne_backupPath p)).trans hlk)
      | atWrite =>
        have e : save_stats p fs db FailAt.atWrite =
            (false, fsSet (fsSet fs (backupPath p) d) (tmpPath p) FileData.bad) := by
          simp [save_stats, saveWrite, hlk]
        rw [e]
        exact Or.inl ((lookup_fsSet_ne (p_ne_tmpPath p)).trans
          ((lookup_fsSet_ne (p_ne_backupPath p)).trans hlk))
      | atReplace =>
        have e : save_stats p fs db FailAt.atReplace =
            (false, fsSet (fsSet fs (backupPath p) d) (tmpPath p)
              (FileData.good (encodeDb db))) := by
          simp [save_stats, saveWrite, hlk]
        rw [e]
        exact Or.inl ((lookup_fsSet_ne (p_ne_tmpPath p)).trans
          ((lookup_fsSet_ne (p_ne_backupPath p)).trans hlk))
    | none =>
      cases fp with
      | noFail => exact Or.inr save_noFail_primary
      | atMakedirs => exact Or.inl hlk
      | atBackup =>
        have e : save_stats p fs db FailAt.atBackup =
            (true, fsRemove (fsSet (fsSet fs (tmpPath p) (FileData.good (encodeDb db))) p
              (FileData.good (encodeDb db))) (tmpPath p)) := by
          simp [save_stats, saveWrite, hlk]
        rw [e]
        refine Or.inr ?_
        rw [lookup_fsRemove_ne (p_ne_tmpPath p), lookup_fsSet_self]
      | atWrite =>
        have e : save_stats p fs db FailAt.atWrite =
            (false, fsSet fs (tmpPath p) FileData.bad) := by
          simp [save_stats, saveWrite, hlk]
        rw [e]
        exact Or.inl ((lookup_fsSet_ne (p_ne_tmpPath p)).trans hlk)
      | atReplace =>
        have e : save_stats p fs db FailAt.atReplace =
            (false, fsSet fs (tmpPath p) (FileData.good (encodeDb db))) := by
          simp [save_stats, saveWrite, hlk]
        rw [e]
        exact Or.inl ((lookup_fsSet_ne (p_ne_tmpPath p)).trans hlk)

/-- A concrete record used in witnesses and counterexamples. -/
def exRecord : Record :=
  { attack := 400, defense := 350, accuracy := 500,
    character_class := some "Berserker".data,
    legendary_skin := false, legendary_familiar := false,
    total_score := 1250, updated_at := "2024-01-01T00:00:00".data }

/-- A concrete one-user database used in witnesses and counterexamples. -/
def exDb : Db := [("123".data, exRecord)]

/-- The working-directory primary path (bot.py line 71). -/
def exPath : Str := "./user_stats.json".data

/-- Witness for `save_stats_write_protocol` at concrete inputs: a successful
save onto an empty file system puts the serialization at the primary path, and
a successful save over an existing primary file copies its old content to the
`.backup` sibling. -/
theorem save_stats_write_protocol_witness :
    List.lookup exPath (save_stats exPath [] exDb FailAt.noFail).2 =
      some (FileData.good (encodeDb exDb)) ∧
    List.lookup (backupPath exPath)
      (save_stats exPath [(exPath, FileData.bad)] exDb FailAt.noFail).2 =
        some FileData.bad :=
  ⟨(save_stats_write_protocol exPath [] exDb).1.2.1,
   (save_stats_write_protocol exPath [(exPath, FileData.bad)] exDb).1.2.2.2.1
     FileData.bad rfl⟩

/-- C3 counterexample: a save whose final `os.replace` step fails returns
`false` but leaves the fully-written `.tmp` file on disk — `save_stats` has no
cleanup handler, contradicting "leaves no `.tmp` file behind". -/
theorem save_stats_tmp_left_cex :
    (save_stats exPath [] exDb FailAt.atReplace).1 = false ∧
    List.lookup (tmpPath exPath) (save_stats exPath [] exDb FailAt.atReplace).2 =
      some (FileData.good (encodeDb exDb)) :=
  ⟨rfl, rfl⟩

/-- C3 (amended): when a step of `save_stats` fails, the call returns `false`
to the caller (the enclosing `try`/`except` catches every exception, so the
function never raises — it is total on `Bool × FS`), and the primary file is
left untouched; the `.tmp` sibling, however, is not cleaned up. -/
theorem save_stats_failure_semantics :
    ∀ (p : Str) (fs : FS) (db : Db) (fp : FailAt),
    ((fp = FailAt.atMakedirs ∨ (fp = FailAt.atBackup ∧ fsExists fs p = true) ∨
      fp = FailAt.atWrite ∨ fp = FailAt.atReplace) →
      (save_stats p fs db fp).1 = false) ∧
    ((save_stats p fs db fp).1 = false →
      List.lookup p (save_stats p fs db fp).2 = List.lookup p fs) := by
  intro p fs db fp
  cases hlk : List.lookup p fs with
  | some d =>
    have hex : fsExists fs p = true := by simp [fsExists, hlk]
    cases fp with
    | noFail =>
      constructor
      · rintro (h | ⟨h, -⟩ | h | h) <;> exact absurd h (by simp)
      · intro hfalse
        rw [save_noFail_eq_some hlk] at hfalse
        exact absurd hfalse (by simp)
    | atMakedirs => exact ⟨fun _ => rfl, fun _ => hlk⟩
    | atBackup =>
      have e : save_stats p fs db FailAt.atBackup =
          (false, fsSet fs (backupPath p) FileData.bad) := by
        simp [save_stats, hlk]
      rw [e]
      exact ⟨fun _ => rfl, fun _ => (lookup_fsSet_ne (p_ne_backupPath p)).trans hlk⟩
    | atWrite =>
      have e : save_stats p fs db FailAt.atWrite =
          (false, fsSet (fsSet fs (backupPath p) d) (tmpPath p) FileData.bad) := by
        simp [save_stats, saveWrite, hlk]
      rw [e]
      exact ⟨fun _ => rfl, fun _ => (lookup_fsSet_ne (p_ne_tmpPath p)).trans
        ((lookup_fsSet_ne (p_ne_backupPath p)).trans hlk)⟩
    | atReplace =>
      have e : save_stats p fs db FailAt.atReplace =
          (false, fsSet (fsSet fs (backupPath p) d) (tmpPath p)
            (FileData.good (encodeDb db))) := by
        simp [save_stats, saveWrite, hlk]
      rw [e]
      exact ⟨fun _ => rfl, fun _ => (lookup_fsSet_ne (p_ne_tmpPath p)).trans
        ((lookup_fsSet_ne (p_ne_backupPath p)).trans hlk)⟩
  | none =>
    have hex : fsExists fs p = false := by simp [fsExists, hlk]
    cases fp with
    | noFail =>
      constructor
      · rintro (h | ⟨h, -⟩ | h | h) <;> exact absurd h (by simp)
      · intro hfalse
        rw [save_noFail_eq_none hlk] at hfalse
        exact absurd hfalse (by simp)
    | atMakedirs => exact ⟨fun _ => rfl, fun _ => hlk⟩
    | atBackup =>
      have e : save_stats p fs db FailAt.atBackup =
          (true, fsRemove (fsSet (fsSet fs (tmpPath p) (FileData.good (encodeDb db))) p
            (FileData.good (encodeDb db))) (tmpPath p)) := by
        simp [save_stats, saveWrite, hlk]
      rw [e]
      constructor
      · rintro (h | ⟨-, h⟩ | h | h)
        · exact absurd h (by simp)
        · exact absurd (hex.symm.trans h) (by simp)
        · exact absurd h (by simp)
        · exact absurd h (by simp)
      · intro hfalse
        exact absurd hfalse (by simp)
    | atWrite =>
      have e : save_stats p fs db FailAt.atWrite =
          (false, fsSet fs (tmpPath p) FileData.bad) := by
        simp [save_stats, saveWrite, hlk]
      rw [e]
      exact ⟨fun _ => rfl, fun _ => (lookup_fsSet_ne (p_ne_tmpPath p)).trans hlk⟩
    | atReplace =>
      have e : save_stats p fs db FailAt.atReplace =
          (false, fsSet fs (tmpPath p) (FileData.good (encodeDb db))) := by
        simp [save_stats, saveWrite, hlk]
      rw [e]
      exact ⟨fun _ => rfl, fun _ => (lookup_fsSet_ne (p_ne_tmpPath p)).trans hlk⟩

/-- Witness for `save_stats_failure_semantics`: a failing serialization makes
the concrete save return `false` while the primary file keeps its old bytes. -/
theorem save_stats_failure_semantics_witness :
    (save_stats exPath [(exPath, FileData.bad)] exDb FailAt.atWrite).1 = false ∧
    List.lookup exPath (save_stats exPath [(exPath, FileData.bad)] exDb FailAt.atWrite).2 =
      List.lookup exPath [(exPath, FileData.bad)] :=
  ⟨(save_stats_failure_semantics exPath [(exPath, FileData.bad)] exDb FailAt.atWrite).1
     (Or.inr (Or.inr (Or.inl rfl))),
   (save_stats_failure_semantics exPath [(exPath, FileData.bad)] exDb FailAt.atWrite).2
     ((save_stats_failure_semantics exPath [(exPath, FileData.bad)] exDb FailAt.atWrite).1
       (Or.inr (Or.inr (Or.inl rfl))))⟩

/-- C5: round trip.  After a successful `save_stats`, `load_stats` returns
exactly the serialized database, and decoding that JSON yields the original
database value again: `load(save(db)) == db`. -/
theorem save_load_roundtrip : ∀ (p : Str) (fs : FS) (db : Db),
    load_stats p (save_stats p fs db FailAt.noFail).2 = encodeDb db ∧
    decodeDb (load_stats p (save_stats p fs db FailAt.noFail).2) = some db := by
  intro p fs db
  have h1 : load_stats p (save_stats p fs db FailAt.noFail).2 = encodeDb db := by
    rw [load_stats, save_noFail_primary]
  refine ⟨h1, ?_⟩
  rw [h1]
  simp [decodeDb, encodeDb, decodeFields_encode]

/-- C2 counterexample: with the primary file absent and a perfectly parseable
nonempty database sitting at the `.backup` sibling, `load_stats` still returns
the empty dict — it never falls back to any backup location and never adopts
or re-persists a backup. -/
theorem load_stats_backup_ignored_cex :
    load_stats exPath [(backupPath exPath, FileData.good (encodeDb exDb))] = emptyJson ∧
    decodeDb (encodeDb exDb) = some exDb ∧
    decodeDb emptyJson ≠ some exDb :=
  ⟨rfl, rfl, by decide⟩

/-- C2 (amended): `load_stats` reads only the primary path: its result is
unaffected by whatever is stored at the `.backup` sibling, and when the
primary file is missing or unreadable/corrupt it returns the empty database
(fresh-start policy) rather than consulting any secondary location. -/
theorem load_stats_primary_only :
    ∀ (p : Str) (fs : FS) (d : FileData),
    load_stats p (fsSet fs (backupPath p) d) = load_stats p fs ∧
    (List.lookup p fs = none ∨ List.lookup p fs = some FileData.bad →
      load_stats p fs = emptyJson) := by
  intro p fs d
  constructor
  · rw [load_stats, load_stats, lookup_fsSet_ne (p_ne_backupPath p)]
  · rintro (h | h) <;> rw [load_stats, h]

/-- Witness for `load_stats_primary_only`: loading from a file system holding
only a (corrupt) backup file yields the empty database. -/
theorem load_stats_primary_only_witness :
    load_stats exPath [] = emptyJson :=
  (load_stats_primary_only exPath [] FileData.bad).2 (Or.inl rfl)

/-- C8 counterexample: the claim quantifies over both multi-word classes, but
an input containing all four constituent words contains both "divine" and
"caster" and still resolves to "Night Ranger" (the night/ranger substring rule
is checked first), not to "Divine Caster". -/
theorem normalize_class_name_precedence_cex :
    containsSub "divine".data (lowerStr "night ranger divine caster".data) = true ∧
    containsSub "caster".data (lowerStr "night ranger divine caster".data) = true ∧
    normalize_class_name "night ranger divine caster".data = some "Night Ranger".data ∧
    "Night Ranger".data ≠ "Divine Caster".data := by
  exact ⟨by decide, by decide, by decide, by decide⟩

/-- C8 (amended): `normalize_class_name` is case-insensitive (it depends on its
input only through the lowercased form); it maps each canonical class name,
its lowercase form, its space-free form and its hyphenated form to the
canonical display form; every successful result is one of the ten canonical
names, and every input matching no rule yields `none` (in particular "xyz");
any input containing both "night" and "ranger" resolves to Night Ranger; and
any input containing both "divine" and "caster" resolves to Divine Caster
provided it does not also contain both "night" and "ranger", which take
precedence. -/
theorem normalize_class_name_spec :
    (normalize_class_name "Night Ranger".data = some "Night Ranger".data ∧
     normalize_class_name "nightranger".data = some "Night Ranger".data ∧
     normalize_class_name "night-ranger".data = some "Night Ranger".data ∧
     normalize_class_name "NIGHT RANGER".data = some "Night Ranger".data ∧
     normalize_class_name "xyz".data = none) ∧
    (∀ s t : Str, lowerStr s = lowerStr t →
      normalize_class_name s = normalize_class_name t) ∧
    (∀ c ∈ AVAILABLE_CLASSES,
      normalize_class_name c = some c ∧
      normalize_class_name (lowerStr c) = some c ∧
      normalize_class_name (dropChar ' ' (lowerStr c)) = some c ∧
      normalize_class_name (spaceToDash (lowerStr c)) = some c) ∧
    (∀ s v : Str, normalize_class_name s = some v → v ∈ AVAILABLE_CLASSES) ∧
    (∀ s : Str, "night".data <:+: lowerStr s → "ranger".data <:+: lowerStr s →
      normalize_class_name s = some "Night Ranger".data) ∧
    (∀ s : Str, "divine".data <:+: lowerStr s → "caster".data <:+: lowerStr s →
      ¬ ("night".data <:+: lowerStr s ∧ "ranger".data <:+: lowerStr s) →
      normalize_class_name s = some "Divine Caster".data) :=
  ⟨⟨by decide, by decide, by decide, by decide, by decide⟩,
   fun _ _ h => normalize_case_insensitive h,
   normalize_canonical_forms,
   fun _ _ hv => normalize_mem_classes hv,
   fun _ hn hr => normalize_night_rule hn hr,
   fun _ hd hc hnr => normalize_divine_rule hd hc hnr⟩

/-- Witness for `normalize_class_name_spec`: the case-insensitivity and
night/ranger clauses applied at concrete inputs. -/
theorem normalize_class_name_spec_witness :
    normalize_class_name "NightRANGER".data = normalize_class_name "nightranger".data ∧
    normalize_class_name "a night and a ranger".data = some "Night Ranger".data :=
  ⟨normalize_class_name_spec.2.1 "NightRANGER".data "nightranger".data (by decide),
   normalize_class_name_spec.2.2.2.2.1 "a night and a ranger".data (by decide) (by decide)⟩

/-! ## The total-score invariant -/

/-- Every record stored in the database satisfies
`total_score = attack + defense + accuracy`. -/
def ScoreInv (db : Db) : Prop :=
  ∀ kv ∈ db, kv.2.total_score = kv.2.attack + kv.2.defense + kv.2.accuracy

theorem ScoreInv_dbSet {db : Db} {k : Str} {v : Record} (h : ScoreInv db)
    (hv : v.total_score = v.attack + v.defense + v.accuracy) :
    ScoreInv (dbSet db k v) := by
  intro kv hkv
  rcases mem_dbSet hkv with h' | h'
  · rw [h']
    exact hv
  · exact h kv h'

theorem ScoreInv_dbModify {f : Record → Record} {db : Db} {k : Str} (h : ScoreInv db)
    (hf : ∀ r, r.total_score = r.attack + r.defense + r.accuracy →
      (f r).total_score = (f r).attack + (f r).defense + (f r).accuracy) :
    ScoreInv (dbModify f db k) := by
  intro kv hkv
  rcases mem_dbModify hkv with h' | ⟨r, hr, hkv'⟩
  · exact h kv h'
  · rw [hkv']
    exact hf r (h (k, r) hr)

/-- C4: every mutating command preserves the invariant
`total_score = attack + defense + accuracy` for every record: `set_stats`
writes the sum directly, `update_stats` recomputes it via `calculate_total`,
and the class/flag commands leave the three numbers and the total untouched. -/
theorem mutations_preserve_total_score : ∀ (db : Db), ScoreInv db →
    (∀ uid a d ac cls now db',
      set_stats_cmd db uid a d ac cls now = SetStatsOut.saveDb db' → ScoreInv db') ∧
    (∀ uid a d ac now db',
      update_stats_cmd db uid a d ac now = UpdateOut.saveDb db' → ScoreInv db') ∧
    (∀ uid c db', set_class_cmd db uid c = ClassOut.saveDb db' → ScoreInv db') ∧
    (∀ uid s db', set_skin_cmd db uid s = FlagOut.saveDb db' → ScoreInv db') ∧
    (∀ uid s db', set_familiar_cmd db uid s = FlagOut.saveDb db' → ScoreInv db') := by
  intro db hInv
  refine ⟨?_, ?_, ?_, ?_, ?_⟩
  · intro uid a d ac cls now db' h
    simp only [set_stats_cmd] at h
    split at h
    · exact absurd h (by simp)
    · simp only [SetStatsOut.saveDb.injEq] at h
      subst h
      exact ScoreInv_dbSet hInv rfl
  · intro uid a d ac now db' h
    simp only [update_stats_cmd] at h
    split at h
    · exact absurd h (by simp)
    · split at h
      · exact absurd h (by simp)
      · simp only [UpdateOut.saveDb.injEq] at h
        subst h
        exact ScoreInv_dbModify hInv (fun r _ => rfl)
  · intro uid c db' h
    rcases c with - | s
    · exact absurd h (by simp [set_class_cmd])
    · simp only [set_class_cmd] at h
      split at h
      · exact absurd h (by simp)
      · split at h
        · exact absurd h (by simp)
        · split at h
          · exact absurd h (by simp)
          · simp only [ClassOut.saveDb.injEq] at h
            subst h
            exact ScoreInv_dbModify hInv (fun r hr => hr)
  · intro uid s db' h
    rcases s with - | s
    · exact absurd h (by simp [set_skin_cmd])
    · simp only [set_skin_cmd] at h
      split at h
      · exact absurd h (by simp)
      · split at h
        · exact absurd h (by simp)
        · simp only [FlagOut.saveDb.injEq] at h
          subst h
          exact ScoreInv_dbModify hInv (fun r hr => hr)
  · intro uid s db' h
    rcases s with - | s
    · exact absurd h (by simp [set_familiar_cmd])
    · simp only [set_familiar_cmd] at h
      split at h
      · exact absurd h (by simp)
      · split at h
        · exact absurd h (by simp)
        · simp only [FlagOut.saveDb.injEq] at h
          subst h
          exact ScoreInv_dbModify hInv (fun r hr => hr)

/-- Witness for `mutations_preserve_total_score`: the database produced by a
concrete `!setstats` satisfies the invariant. -/
theorem mutations_preserve_total_score_witness :
    ScoreInv (dbSet [] "123".data
      { attack := 400, defense := 350, accuracy := 500, character_class := none,
        legendary_skin := false, legendary_familiar := false,
        total_score := 1250, updated_at := "t".data }) :=
  (mutations_preserve_total_score [] (fun kv hkv => absurd hkv (List.not_mem_nil kv))).1
    "123".data 400 350 500 none "t".data _ rfl

theorem dbModify_preserves_updated_at {f : Record → Record} {db : Db} {k : Str}
    (hf : ∀ r, (f r).updated_at = r.updated_at) :
    ∀ q, (List.lookup q (dbModify f db k)).map Record.updated_at =
      (List.lookup q db).map Record.updated_at := by
  intro q
  by_cases hq : q = k
  · subst hq
    rw [lookup_dbModify_self]
    cases List.lookup q db <;> simp [hf]
  · rw [lookup_dbModify_ne hq]

/-- C6 counterexample: `!setskin` mutates the record (its skin flag flips to
`true`) but leaves `updated_at` at its old value `2024-01-01T00:00:00`; since
the handler never reads the clock, a mutation performed at any later time
keeps a stale timestamp, so `updated_at` is not the timestamp of the last
mutation. -/
theorem updated_at_stale_cex :
    set_skin_cmd exDb "123".data (some "yes".data) =
      FlagOut.saveDb [("123".data,
        { attack := 400, defense := 350, accuracy := 500,
          character_class := some "Berserker".data,
          legendary_skin := true, legendary_familiar := false,
          total_score := 1250, updated_at := "2024-01-01T00:00:00".data })] := by
  decide

/-- C6 (amended): `set_stats` and `update_stats` stamp the mutated record's
`updated_at` with the current time, but `set_class`, `set_skin` and
`set_familiar` leave every record's `updated_at` unchanged. -/
theorem updated_at_semantics : ∀ (db : Db) (uid now : Str),
    (∀ a d ac cls db', set_stats_cmd db uid a d ac cls now = SetStatsOut.saveDb db' →
      (List.lookup uid db').map Record.updated_at = some now) ∧
    (∀ a d ac db', update_stats_cmd db uid a d ac now = UpdateOut.saveDb db' →
      (List.lookup uid db').map Record.updated_at = some now) ∧
    (∀ c db', set_class_cmd db uid c = ClassOut.saveDb db' →
      ∀ k, (List.lookup k db').map Record.updated_at =
        (List.lookup k db).map Record.updated_at) ∧
    (∀ s db', set_skin_cmd db uid s = FlagOut.saveDb db' →
      ∀ k, (List.lookup k db').map Record.updated_at =
        (List.lookup k db).map Record.updated_at) ∧
    (∀ s db', set_familiar_cmd db uid s = FlagOut.saveDb db' →
      ∀ k, (List.lookup k db').map Record.updated_at =
        (List.lookup k db).map Record.updated_at) := by
  intro db uid now
  refine ⟨?_, ?_, ?_, ?_, ?_⟩
  · intro a d ac cls db' h
    simp only [set_stats_cmd] at h
    split at h
    · exact absurd h (by simp)
    · simp only [SetStatsOut.saveDb.injEq] at h
      subst h
      rw [lookup_dbSet_self]
      rfl
  · intro a d ac db' h
    cases hlk : List.lookup uid db with
    | none =>
      simp only [update_stats_cmd, hlk] at h
      exact absurd h (by simp)
    | some r0 =>
      simp only [update_stats_cmd, hlk] at h
      split at h
      · exact absurd h (by simp)
      · simp only [UpdateOut.saveDb.injEq] at h
        subst h
        rw [lookup_dbModify_self, hlk]
        rfl
  · intro c db' h
    rcases c with - | s
    · exact absurd h (by simp [set_class_cmd])
    · simp only [set_class_cmd] at h
      split at h
      · exact absurd h (by simp)
      · split at h
        · exact absurd h (by simp)
        · split at h
          · exact absurd h (by simp)
          · simp only [ClassOut.saveDb.injEq] at h
            subst h
            exact dbModify_preserves_updated_at (fun r => rfl)
  · intro s db' h
    rcases s with - | s
    · exact absurd h (by simp [set_skin_cmd])
    · simp only [set_skin_cmd] at h
      split at h
      · exact absurd h (by simp)
      · split at h
        · exact absurd h (by simp)
        · simp only [FlagOut.saveDb.injEq] at h
          subst h
          exact dbModify_preserves_updated_at (fun r => rfl)
  · intro s db' h
    rcases s with - | s
    · exact absurd h (by simp [set_familiar_cmd])
    · simp only [set_familiar_cmd] at h
      split at h
      · exact absurd h (by simp)
      · split at h
        · exact absurd h (by simp)
        · simp only [FlagOut.saveDb.injEq] at h
          subst h
          exact dbModify_preserves_updated_at (fun r => rfl)

/-- Witness for `updated_at_semantics`: a concrete `!setstats` stamps the new
record with the supplied time. -/
theorem updated_at_semantics_witness :
    (List.lookup "123".data (dbSet exDb "123".data
      { attack := 1, defense := 2, accuracy := 3, character_class := none,
        legendary_skin := false, legendary_familiar := false,
        total_score := 6, updated_at := "2025-06-01T00:00:00".data })).map
      Record.updated_at = some "2025-06-01T00:00:00".data :=
  (updated_at_semantics exDb "123".data "2025-06-01T00:00:00".data).1 1 2 3 none _ rfl

/-- C7 counterexample: a `!setstats` call with a negative attack value raises
no validation error — it stores the record verbatim, with `attack = -5` in the
database, contradicting "negative numeric input is a validation error with no
partial mutation". -/
theorem negative_stats_accepted_cex :
    set_stats_cmd [] "123".data (-5) 3 4 none "t".data =
      SetStatsOut.saveDb [("123".data,
        { attack := -5, defense := 3, accuracy := 4, character_class := none,
          legendary_skin := false, legendary_familiar := false,
          total_score := 2, updated_at := "t".data })] ∧
    (-5 : Int) < 0 := by
  exact ⟨by decide, by decide⟩

/-- C7 (amended): the handlers perform no non-negativity validation at all.
`set_stats` and `update_stats` store the supplied integers verbatim, even when
they are negative (non-integer text is rejected earlier by the command
framework's `int` converter, not by this code, and there is no
`InvalidNumericInput` path). -/
theorem stats_stored_verbatim : ∀ (db : Db) (uid : Str) (a d ac : Int) (now : Str),
    a < 0 ∨ d < 0 ∨ ac < 0 →
    (set_stats_cmd db uid a d ac none now =
      SetStatsOut.saveDb (dbSet db uid
        { attack := a, defense := d, accuracy := ac, character_class := none,
          legendary_skin := false, legendary_familiar := false,
          total_score := a + d + ac, updated_at := now }) ∧
      (List.lookup uid (dbSet db uid
        { attack := a, defense := d, accuracy := ac, character_class := none,
          legendary_skin := false, legendary_familiar := false,
          total_score := a + d + ac, updated_at := now })).map Record.attack = some a) ∧
    (∀ r, List.lookup uid db = some r →
      update_stats_cmd db uid (some a) (some d) (some ac) now =
        UpdateOut.saveDb (dbModify (applyUpdate (some a) (some d) (some ac) now) db uid) ∧
      (applyUpdate (some a) (some d) (some ac) now r).attack = a ∧
      (applyUpdate (some a) (some d) (some ac) now r).defense = d ∧
      (applyUpdate (some a) (some d) (some ac) now r).accuracy = ac) := by
  intro db uid a d ac now _
  constructor
  · constructor
    · rfl
    · rw [lookup_dbSet_self]
      rfl
  · intro r hr
    refine ⟨?_, rfl, rfl, rfl⟩
    simp only [update_stats_cmd, hr]
    rfl

/-- Witness for `stats_stored_verbatim`: concrete negative stats are stored
as supplied. -/
theorem stats_stored_verbatim_witness :
    (List.lookup "123".data (dbSet exDb "123".data
      { attack := -5, defense := -6, accuracy := -7, character_class := none,
        legendary_skin := false, legendary_familiar := false,
        total_score := -18, updated_at := "t".data })).map Record.attack =
      some (-5 : Int) ∧
    (applyUpdate (some (-5)) (some (-6)) (some (-7)) "t".data exRecord).attack = -5 :=
  ⟨((stats_stored_verbatim exDb "123".data (-5) (-6) (-7) "t".data
      (Or.inl (by decide))).1).2,
   (((stats_stored_verbatim exDb "123".data (-5) (-6) (-7) "t".data
      (Or.inl (by decide))).2) exRecord rfl).2.1⟩

/-- C9 counterexample: a failing write makes the `!backup` handler raise — the
exception propagates out of `backup_command` (there is no `try`/`except`
around the write), contradicting "failures are silently ignored and the
operation never raises". -/
theorem backup_command_raises_cex :
    backup_command exPath [] "20240101_000000".data "2024-01-01T00:00:00".data true =
      Except.error () := rfl

/-- C9 (amended): the manual backup writes the loaded database, with a date
stamp and player count, to the single timestamped relative path
`backup_<timestamp>.json`, touching no other file; it tries no further
locations and does not catch I/O failures — a failing write propagates an
exception out of the handler. -/
theorem backup_command_semantics : ∀ (p : Str) (fs : FS) (t iso : Str),
    backup_command p fs t iso true = Except.error () ∧
    (∀ fs', backup_command p fs t iso false = Except.ok fs' →
      List.lookup (manualBackupName t) fs' =
        some (FileData.good (manualBackupJson iso (load_stats p fs))) ∧
      (∀ q, q ≠ manualBackupName t → List.lookup q fs' = List.lookup q fs)) := by
  intro p fs t iso
  refine ⟨rfl, ?_⟩
  intro fs' h
  simp only [backup_command] at h
  rw [if_neg (by simp)] at h
  simp only [Except.ok.injEq] at h
  subst h
  exact ⟨lookup_fsSet_self, fun q hq => lookup_fsSet_ne hq⟩

/-- Witness for `backup_command_semantics`: a concrete failing backup raises,
and a concrete successful backup leaves the primary path untouched. -/
theorem backup_command_semantics_witness :
    backup_command exPath [] "20240101_000000".data "2024-01-01T00:00:00".data true =
      Except.error () ∧
    List.lookup exPath (fsSet [] (manualBackupName "20240101_000000".data)
      (FileData.good (manualBackupJson "2024-01-01T00:00:00".data
        (load_stats exPath [])))) = List.lookup exPath [] :=
  ⟨(backup_command_semantics exPath [] "20240101_000000".data
      "2024-01-01T00:00:00".data).1,
   ((backup_command_semantics exPath [] "20240101_000000".data
      "2024-01-01T00:00:00".data).2 _ rfl).2 exPath (by decide)⟩

/-- C10: the `!setskin` and `!setfamiliar` arguments are compared
case-insensitively against exactly the four tokens `yes`, `no`, `tak`, `nie`;
`yes`/`tak` set the flag to `true`, `no`/`nie` set it to `false`, and a
missing argument or any other token produces a usage error with no record
mutated and no save performed. -/
theorem flag_commands_spec : ∀ (db : Db) (uid : Str),
    (set_skin_cmd db uid none = FlagOut.usage ∧
     set_familiar_cmd db uid none = FlagOut.usage) ∧
    (∀ s : Str, lowerStr s ∉ yesNoTokens →
      set_skin_cmd db uid (some s) = FlagOut.invalidValue ∧
      set_familiar_cmd db uid (some s) = FlagOut.invalidValue) ∧
    (∀ s : Str, lowerStr s = "yes".data ∨ lowerStr s = "tak".data →
      ∀ r, List.lookup uid db = some r →
        set_skin_cmd db uid (some s) =
          FlagOut.saveDb (dbModify (fun r => { r with legendary_skin := true }) db uid) ∧
        set_familiar_cmd db uid (some s) =
          FlagOut.saveDb (dbModify (fun r => { r with legendary_familiar := true }) db uid)) ∧
    (∀ s : Str, lowerStr s = "no".data ∨ lowerStr s = "nie".data →
      ∀ r, List.lookup uid db = some r →
        set_skin_cmd db uid (some s) =
          FlagOut.saveDb (dbModify (fun r => { r with legendary_skin := false }) db uid) ∧
        set_familiar_cmd db uid (some s) =
          FlagOut.saveDb (dbModify (fun r => { r with legendary_familiar := false }) db uid)) := by
  intro db uid
  refine ⟨⟨rfl, rfl⟩, ?_, ?_, ?_⟩
  · intro s hs
    constructor
    · simp [set_skin_cmd, hs]
    · simp [set_familiar_cmd, hs]
  · intro s hs r hr
    have hm1 : lowerStr s ∈ yesNoTokens := by
      rcases hs with h | h <;> rw [h] <;> decide
    have hm2 : lowerStr s ∈ yesTokens := by
      rcases hs with h | h <;> rw [h] <;> decide
    constructor
    · simp [set_skin_cmd, hm1, hm2, hr]
    · simp [set_familiar_cmd, hm1, hm2, hr]
  · intro s hs r hr
    have hm1 : lowerStr s ∈ yesNoTokens := by
      rcases hs with h | h <;> rw [h] <;> decide
    have hm2 : lowerStr s ∉ yesTokens := by
      rcases hs with h | h <;> rw [h] <;> decide
    constructor
    · simp [set_skin_cmd, hm1, hm2, hr]
    · simp [set_familiar_cmd, hm1, hm2, hr]

/-- Witness for `flag_commands_spec`: `!setskin TAK` (case-insensitive Polish
"yes") sets the flag on a concrete database, and `!setfamiliar xyz` is
rejected without any save. -/
theorem flag_commands_spec_witness :
    set_skin_cmd exDb "123".data (some "TAK".data) =
      FlagOut.saveDb (dbModify (fun r => { r with legendary_skin := true })
        exDb "123".data) ∧
    set_familiar_cmd exDb "123".data (some "xyz".data) = FlagOut.invalidValue :=
  ⟨((flag_commands_spec exDb "123".data).2.2.1 "TAK".data (Or.inr (by decide))
      exRecord rfl).1,
   ((flag_commands_spec exDb "123".data).2.1 "xyz".data (by decide)).2⟩
